import Mathlib

/-!
Verification of the dockmon collector subsystem (package `monitor`,
files `handler.go` and `log_parser.go`, plus the `collector.Log` model).

Strings are modelled as `List Char` (Unicode scalar values); Go strings at
the points modelled here are valid UTF-8 (they have just passed
`strings.ToValidUTF8`), so the char-list view is faithful, and
`strings.ToValidUTF8` itself is the identity in this model.  Byte-level
behaviour (UTF-8 encoding, `len`, byte truncation) is modelled explicitly
with `utf8EncodeChar` / `validUtf8` below.
-/

namespace Dockmon

/-! ### Character classification (Go `unicode` package)

`goIsSpace` is Go's `unicode.IsSpace`: exactly the Unicode `White_Space`
code points, reproduced in full.

`goIsPrint` is Go's `unicode.IsPrint`, reproduced exactly on Latin-1
(`r <= 0xFF`: printable are 0x20..0x7E and 0xA1..0xFF except the soft
hyphen 0xAD).  Above Latin-1 Go consults its category tables; that part is
approximated by `true` here.  No theorem below depends on the value of
`goIsPrint` above Latin-1: the concrete inputs used are ASCII, and the
general theorems only use that `' '` is printable and that ESC (0x1B) is
neither printable nor white space. -/

def goIsSpace (c : Char) : Bool :=
  let n := c.toNat
  n = 0x09 || n = 0x0A || n = 0x0B || n = 0x0C || n = 0x0D || n = 0x20 ||
  n = 0x85 || n = 0xA0 || n = 0x1680 || (0x2000 ≤ n && n ≤ 0x200A) ||
  n = 0x2028 || n = 0x2029 || n = 0x202F || n = 0x205F || n = 0x3000

def goIsPrint (c : Char) : Bool :=
  let n := c.toNat
  if n ≤ 0xFF then
    (0x20 ≤ n && n ≤ 0x7E) || (0xA1 ≤ n && n ≤ 0xFF && !(n = 0xAD))
  else
    true

/-- A character survives the non-printable filter of `cleanString` iff it
is printable or white space (`unicode.IsPrint(r) || unicode.IsSpace(r)`). -/
def printOrSpace (c : Char) : Bool := goIsPrint c || goIsSpace c

/-- The ESC character 0x1B, start of every ANSI escape sequence. -/
def escChar : Char := Char.ofNat 0x1B

/-! ### ANSI escape removal

Go: `ansiEscapeCodeRegexp` matches ESC `[`, then any number of bytes in
0x30..0x39, 0x3B, 0x3F (class 1), then any number of bytes in 0x20..0x2F
(class 2), then exactly one byte in 0x40..0x7E (class 3), and
`ReplaceAllString(s, "")` deletes every match.  The three classes are
pairwise disjoint and disjoint from ESC, so the RE2 scan is deterministic:
at each ESC `[`, greedily consume class 1, then class 2, then one class-3
byte; on success resume after the match, on failure resume right after the
ESC (no later match can start inside the consumed class characters, since
a match must start with ESC).  `ansiScan` transcribes this scan with an
explicit fuel argument; `ansiStrip` supplies fuel `l.length`, which is
always sufficient (each step consumes at least one character). -/

def inCSI1 (c : Char) : Bool :=
  (0x30 ≤ c.toNat && c.toNat ≤ 0x39) || c.toNat = 0x3B || c.toNat = 0x3F

def inCSI2 (c : Char) : Bool := 0x20 ≤ c.toNat && c.toNat ≤ 0x2F

def inCSI3 (c : Char) : Bool := 0x40 ≤ c.toNat && c.toNat ≤ 0x7E

def ansiScan : Nat → List Char → List Char
  | _, [] => []
  | 0, l => l
  | fuel + 1, c :: rest =>
    if c = escChar then
      match rest with
      | '[' :: r2 =>
        match (r2.dropWhile inCSI1).dropWhile inCSI2 with
        | d :: r5 =>
          if inCSI3 d then ansiScan fuel r5 else c :: ansiScan fuel rest
        | [] => c :: ansiScan fuel rest
      | _ => c :: ansiScan fuel rest
    else c :: ansiScan fuel rest

def ansiStrip (l : List Char) : List Char := ansiScan l.length l

/-! ### The rest of the `cleanString` pipeline -/

/-- The non-printable replacement loop of `cleanString`: printable or
white-space runes are kept, every other rune is replaced by a space. -/
def replaceNonPrint (l : List Char) : List Char :=
  l.map fun r => if printOrSpace r then r else ' '

/-- Right half of `strings.TrimSpace`: drop trailing `unicode.IsSpace`
runes (`List.rdropWhile p l` is `reverse (dropWhile p l.reverse)`). -/
def trimRight (l : List Char) : List Char := l.rdropWhile goIsSpace

/-- `strings.TrimSpace`: drop leading and trailing white space. -/
def trimSpace (l : List Char) : List Char :=
  trimRight (l.dropWhile goIsSpace)

/-- UTF-8 encoded size in bytes of one scalar value (Go
`utf8.RuneLen` for valid runes). -/
def utf8Len (c : Char) : Nat :=
  if c.toNat < 0x80 then 1
  else if c.toNat < 0x800 then 2
  else if c.toNat < 0x10000 then 3
  else 4

/-- Byte length of the UTF-8 encoding of a string (Go `len(s)`). -/
def bytesLen (l : List Char) : Nat := (l.map utf8Len).sum

/-- Longest prefix of whole scalars whose encoding fits in `b` bytes. -/
def takeBytes : Nat → List Char → List Char
  | _, [] => []
  | b, c :: rest =>
    if utf8Len c ≤ b then c :: takeBytes (b - utf8Len c) rest else []

/-- Complement of `takeBytes`: what remains after removing the first `b`
bytes (assuming `b` falls on a scalar boundary, as it does for the ASCII
frame headers this is applied to). -/
def dropBytes : Nat → List Char → List Char
  | _, [] => []
  | b, c :: rest =>
    if utf8Len c ≤ b then dropBytes (b - utf8Len c) rest else c :: rest

def maxLogMessageBytes : Nat := 64000

/-- Go `truncateUTF8ByBytes`: return `s` unchanged when `maxBytes <= 0` or
`len(s) <= maxBytes`; otherwise `s[:maxBytes]` with trailing bytes dropped
until the result is valid UTF-8.  On a valid string that byte-level loop
cuts exactly at the last scalar boundary at or before `maxBytes`, i.e. it
returns the longest whole-scalar prefix fitting in `maxBytes` bytes; the
equivalence with the byte-level transcription `goTruncateBytes` is proved
in `goTruncateBytes_encode` below. -/
def truncateUTF8ByBytes (l : List Char) (maxBytes : Nat) : List Char :=
  if maxBytes = 0 || bytesLen l ≤ maxBytes then l else takeBytes maxBytes l

/-- Go `cleanString`: the message sanitizer.  `strings.ToValidUTF8 s ""` is
the identity on the char-list model (it only removes invalid byte
sequences, which do not exist in a `List Char`). -/
def cleanString (l : List Char) : List Char :=
  if l = [] then l
  else
    truncateUTF8ByBytes (trimSpace (replaceNonPrint (ansiStrip l)))
      maxLogMessageBytes

/-- `cleanString` lifted to Lean `String`. -/
def cleanStr (s : String) : String := String.mk (cleanString s.data)

/-! ### Byte-level UTF-8 model

Used to state and prove the truncation-safety claim at the level Go
actually works at: raw bytes. -/

/-- UTF-8 encoding of one scalar value, as a list of byte values. -/
def utf8EncodeChar (c : Char) : List Nat :=
  let v := c.toNat
  if v < 0x80 then [v]
  else if v < 0x800 then [0xC0 + v / 0x40, 0x80 + v % 0x40]
  else if v < 0x10000 then
    [0xE0 + v / 0x1000, 0x80 + (v / 0x40) % 0x40, 0x80 + v % 0x40]
  else
    [0xF0 + v / 0x40000, 0x80 + (v / 0x1000) % 0x40,
     0x80 + (v / 0x40) % 0x40, 0x80 + v % 0x40]

def utf8Encode : List Char → List Nat
  | [] => []
  | c :: rest => utf8EncodeChar c ++ utf8Encode rest

/-- Lower bound of Go's acceptRanges for the byte after a multi-byte
lead: 0xA0 after 0xE0, 0x90 after 0xF0, else 0x80. -/
def contLo (b : Nat) : Nat :=
  if b = 0xE0 then 0xA0 else if b = 0xF0 then 0x90 else 0x80

/-- Upper bound of Go's acceptRanges for the byte after a multi-byte
lead: 0x9F after 0xED, 0x8F after 0xF4, else 0xBF. -/
def contHi (b : Nat) : Nat :=
  if b = 0xED then 0x9F else if b = 0xF4 then 0x8F else 0xBF

/-- Byte automaton of Go `utf8.ValidString` (RFC 3629: no overlong forms,
no surrogates, at most U+10FFFF): `p` pending continuation bytes, with
`lo..hi` the accepted range for the next byte (the second byte of a
sequence has the lead-dependent range from acceptRanges, the remaining
ones 0x80..0xBF). -/
def validScan : Nat → Nat → Nat → List Nat → Bool
  | 0, _, _, [] => true
  | _ + 1, _, _, [] => false
  | 0, _, _, b :: rest =>
    if b ≤ 0x7F then validScan 0 0 0 rest
    else if 0xC2 ≤ b ∧ b ≤ 0xDF then validScan 1 0x80 0xBF rest
    else if 0xE0 ≤ b ∧ b ≤ 0xEF then validScan 2 (contLo b) (contHi b) rest
    else if 0xF0 ≤ b ∧ b ≤ 0xF4 then validScan 3 (contLo b) (contHi b) rest
    else false
  | p + 1, lo, hi, b :: rest =>
    if lo ≤ b ∧ b ≤ hi then validScan p 0x80 0xBF rest else false

/-- Go `utf8.ValidString` on a byte sequence. -/
def validUtf8 (bs : List Nat) : Bool := validScan 0 0 0 bs

/-- The byte-dropping loop of `truncateUTF8ByBytes`:
`for !utf8.ValidString(truncated) && len(truncated) > 0 { drop last byte }`.
The fuel bounds the number of iterations; `[]` is valid, so fuel equal to
the list length always suffices. -/
def dropWhileInvalid : Nat → List Nat → List Nat
  | 0, t => t
  | fuel + 1, t => if validUtf8 t then t else dropWhileInvalid fuel t.dropLast

/-- Byte-level transcription of Go `truncateUTF8ByBytes`. -/
def goTruncateBytes (bs : List Nat) (maxBytes : Nat) : List Nat :=
  if maxBytes = 0 || bs.length ≤ maxBytes then bs
  else dropWhileInvalid maxBytes (bs.take maxBytes)

/-- `cleanString` with its final truncation performed on the raw UTF-8
bytes, exactly as Go does. -/
def cleanStringBytes (l : List Char) : List Nat :=
  if l = [] then []
  else
    goTruncateBytes (utf8Encode (trimSpace (replaceNonPrint (ansiStrip l))))
      maxLogMessageBytes

/-! ### JSON values and the structured-line mapping (`tryParseLogToJson`)

`encoding/json.Unmarshal` into `map[string]interface{}` yields a finite
map from keys to decoded values; it is modelled as an association list
with pairwise distinct keys (a JSON object decoded by Go has no duplicate
keys).  Go map iteration order is unspecified, which is why theorems about
the field mapping characterize the result through `List.lookup` under a
`Nodup` hypothesis instead of through list order.  Numbers decode to
`float64` and are only ever observed here through `fmt.Sprint`; the number
type `ν` and the printing function for the non-nil, non-string cases are
therefore parameters of the model. -/

inductive JSONValue (ν : Type) where
  | null
  | boolVal (b : Bool)
  | num (x : ν)
  | str (s : String)
  | arr (elems : List (JSONValue ν))
  | obj (fields : List (String × JSONValue ν))

/-- Go `stringifyJSONValue`: `nil` becomes `""`, a string is returned as
is, every other decoded value goes through `fmt.Sprint` (the parameter
`sprint`). -/
def stringifyJSONValue (sprint : JSONValue ν → String) :
    JSONValue ν → String
  | .null => ""
  | .str s => s
  | v => sprint v

/-- One normalized log record before persistence (Go `LogEntry`).  The
type of the `Extra` map is a parameter `E`. -/
structure LogEntry (E : Type) where
  level : String
  time : String
  caller : String
  message : String
  traceId : String
  containerId : String
  containerName : String
  extra : E
deriving DecidableEq

/-- The key switch in the field-mapping loop of `tryParseLogToJson`. -/
def applyJSONField (sprint : JSONValue ν → String)
    (e : LogEntry (List (String × JSONValue ν)))
    (kv : String × JSONValue ν) : LogEntry (List (String × JSONValue ν)) :=
  if kv.1 = "L" then { e with level := stringifyJSONValue sprint kv.2 }
  else if kv.1 = "T" then { e with time := stringifyJSONValue sprint kv.2 }
  else if kv.1 = "C" then { e with caller := stringifyJSONValue sprint kv.2 }
  else if kv.1 = "M" then { e with message := stringifyJSONValue sprint kv.2 }
  else if kv.1 = "TraceID" then
    { e with traceId := stringifyJSONValue sprint kv.2 }
  else { e with extra := e.extra ++ [kv] }

/-- Go `tryParseLogToJson` after a successful `json.Unmarshal`: start from
an entry with empty string fields and empty `Extra`, then fold the decoded
object through the key switch.  (The decode-failure branch returns the
error before this mapping; decoding itself is a parameter elsewhere.) -/
def tryParseLogToJson (sprint : JSONValue ν → String)
    (raw : List (String × JSONValue ν)) (cid cname : String) :
    LogEntry (List (String × JSONValue ν)) :=
  raw.foldl (applyJSONField sprint)
    { level := "", time := "", caller := "", message := "", traceId := "",
      containerId := cid, containerName := cname, extra := [] }

/-! ### Level inference (`determineLogLevel`) -/

/-- `pat` occurs as a contiguous run inside `l` (Go `strings.Contains`). -/
def leadsWith : List Char → List Char → Bool
  | _, [] => true
  | [], _ :: _ => false
  | c :: l, p :: ps => c == p && leadsWith l ps

def occursIn (l pat : List Char) : Bool :=
  match l with
  | [] => pat.isEmpty
  | _ :: rest => leadsWith l pat || occursIn rest pat

/-- Go `strings.ToLower`, modelled with `Char.toLower` (exact on ASCII,
which covers every keyword and concrete input used below). -/
def goToLower (s : String) : String := String.mk (s.data.map Char.toLower)

def strContains (s sub : String) : Bool := occursIn s.data sub.data

/-- The priority-ordered level keyword table of `determineLogLevel`. -/
def logLevels : List (String × String) :=
  [("fatal", "FATAL"), ("panic", "PANIC"), ("error", "ERROR"),
   ("debug", "DEBUG"), ("warning", "WARN"), ("warn", "WARN")]

/-- Go `determineLogLevel`: lower-case the message, return the value of
the first keyword that occurs in it, defaulting to INFO. -/
def determineLogLevel (message : String) : String :=
  let lower := goToLower message
  match logLevels.find? (fun kv => strContains lower kv.1) with
  | some kv => kv.2
  | none => "INFO"

/-! ### `storeLog` and the persistence model -/

/-- The value handed to `service.Store` (Go `collector.Log`, minus the
auto-increment ID).  `timeValid` is the `sql.NullTime.Valid` flag. -/
structure StoredLog (E : Type) where
  level : String
  timeValid : Bool
  caller : String
  message : String
  traceId : String
  containerId : String
  containerName : String
  extra : E
deriving DecidableEq

/-- Go `storeLog`.  `parseTime t` tells whether any configured layout in
`h.configs.TimeLayout` parses `t` (`parseTimeString` succeeds).
`json.Marshal` of an `Extra` map that came out of `json.Unmarshal` cannot
fail and is modelled as always succeeding (the map is carried through
unchanged).  The result is the value passed to `service.Store`, or `none`
when `storeLog` returns without calling `Store`. -/
def storeLog (parseTime : String → Bool) (e : LogEntry E) :
    Option (StoredLog E) :=
  if e.message = "" then none
  else if !(e.time = "") && !parseTime e.time then none
  else
    some { level := e.level, timeValid := !(e.time = ""), caller := e.caller,
           message := cleanStr e.message, traceId := e.traceId,
           containerId := e.containerId, containerName := e.containerName,
           extra := e.extra }

/-! ### Unstructured-log buffering and `processLogLine`

State is per container (the Go code keys `unstructuredLogs.entries` by
container ID; a worker touches only its own entry, so one container's
buffer slot, an `Option UBuf`, models the map entry: `none` means the key
is absent).  Panics are modelled with `Except Unit`: `.error ()` is a Go
runtime panic. -/

structure UBuf where
  containerID : String
  containerName : String
  logs : List String
  logTime : String
deriving DecidableEq

/-- Transcription of the anchored time-prefix pattern of
`matchTimePrefix`: four digits, slash, two digits, slash, two digits,
optionally followed by a space and `HH:mm:ss`, optionally followed by a
dot and six digits.  Both optional groups sit at the end of the pattern,
so greedy matching never backtracks; `FindString` returns the matched
prefix, or the empty string when the date part fails. -/
def isDigit (c : Char) : Bool := 0x30 ≤ c.toNat && c.toNat ≤ 0x39

def matchDigits : Nat → List Char → Option (List Char × List Char)
  | 0, l => some ([], l)
  | n + 1, c :: l =>
    if isDigit c then
      match matchDigits n l with
      | some (m, r) => some (c :: m, r)
      | none => none
    else none
  | _ + 1, [] => none

def matchLit (c : Char) : List Char → Option (List Char × List Char)
  | d :: l => if d = c then some ([d], l) else none
  | [] => none

def matchSeq (a b : List Char → Option (List Char × List Char)) :
    List Char → Option (List Char × List Char) :=
  fun l =>
    match a l with
    | none => none
    | some (m, r) =>
      match b r with
      | none => none
      | some (m2, r2) => some (m ++ m2, r2)

def matchOpt (a : List Char → Option (List Char × List Char)) :
    List Char → Option (List Char × List Char) :=
  fun l =>
    match a l with
    | none => some ([], l)
    | some res => some res

def timeOfDayPat : List Char → Option (List Char × List Char) :=
  matchSeq (matchLit ' ')
    (matchSeq (matchDigits 2)
      (matchSeq (matchLit ':')
        (matchSeq (matchDigits 2)
          (matchSeq (matchLit ':')
            (matchSeq (matchDigits 2)
              (matchOpt (matchSeq (matchLit '.') (matchDigits 6))))))))

def datePat : List Char → Option (List Char × List Char) :=
  matchSeq (matchDigits 4)
    (matchSeq (matchLit '/')
      (matchSeq (matchDigits 2)
        (matchSeq (matchLit '/') (matchDigits 2))))

/-- Go `matchTimePrefix` (`FindString` of the anchored pattern). -/
def matchTimePrefix (l : List Char) : List Char :=
  match matchSeq datePat (matchOpt timeOfDayPat) l with
  | some (m, _) => m
  | none => []

/-- Go `isTimePrefix`. -/
def isTimePrefix (l : List Char) : Bool := !(matchTimePrefix l).isEmpty

def strLeadsWith (s pre : String) : Bool := leadsWith s.data pre.data

/-- Go `isUnstructuredLog`: a line starts a new unstructured block when it
carries a time prefix or one of the configured line flags. -/
def isUnstructuredLog (flags : List String) (line : String) : Bool :=
  isTimePrefix line.data || flags.any (fun flag => strLeadsWith line flag)

/-- Go `strings.Join lines "\n"`. -/
def joinNL : List String → String
  | [] => ""
  | [s] => s
  | s :: rest => s ++ "\n" ++ joinNL rest

/-- Go `processRemainingLogLines`: merge the buffered lines, infer the
level, and build an unstructured entry with empty `Extra`. -/
def processRemainingLogLines (lines : List String)
    (logTime cid cname : String) : LogEntry (List (String × JSONValue ν)) :=
  let message := joinNL lines
  { level := determineLogLevel message, time := logTime, caller := "",
    message := message, traceId := "", containerId := cid,
    containerName := cname, extra := [] }

/-- Go `processUnstructuredLog`: a missing map entry returns quietly; a
non-empty buffer is flushed through `storeLog` with the time prefix of its
first line when present, else the buffered base time; the buffer's lines
are reset in every branch (the deferred reset).  The second component
lists the values passed to `service.Store`. -/
def processUnstructuredLog (parseTime : String → Bool)
    (buf? : Option UBuf) :
    Option UBuf × List (StoredLog (List (String × JSONValue ν))) :=
  match buf? with
  | none => (none, [])
  | some buf =>
    match buf.logs with
    | [] => (some { buf with logs := [] }, [])
    | l0 :: _ =>
      let logTime :=
        if (matchTimePrefix l0.data).isEmpty then buf.logTime
        else String.mk (matchTimePrefix l0.data)
      let entry : LogEntry (List (String × JSONValue ν)) :=
        processRemainingLogLines buf.logs logTime buf.containerID
          buf.containerName
      (some { buf with logs := [] }, (storeLog parseTime entry).toList)

/-- Go `processLogLine`.  `decode` is `json.Unmarshal` into
`map[string]interface{}`: `some raw` on success (an object with distinct
keys), `none` on a decode error.  Reading
`h.unstructuredLogs.entries[containerID].logs` when the key is absent
dereferences a nil `*unstructuredLogBuffer` and panics (`.error ()`); the
same nil dereference is transcribed again after the flush. -/
def processLogLine (decode : String → Option (List (String × JSONValue ν)))
    (sprint : JSONValue ν → String) (parseTime : String → Bool)
    (flags : List String) (buf? : Option UBuf)
    (logTime logLine cid cname : String) :
    Except Unit (Option UBuf × List (StoredLog (List (String × JSONValue ν)))) :=
  match buf? with
  | none => .error ()
  | some buf =>
    let cnt := buf.logs.length
    match decode logLine with
    | some raw =>
      let entry := tryParseLogToJson sprint raw cid cname
      let flushed :=
        if 0 < cnt then processUnstructuredLog parseTime buf? else (buf?, [])
      .ok (flushed.1, flushed.2 ++ (storeLog parseTime entry).toList)
    | none =>
      let flushed :=
        if 0 < cnt && isUnstructuredLog flags logLine then
          processUnstructuredLog parseTime buf?
        else (buf?, [])
      match flushed.1 with
      | none => .error ()
      | some b1 =>
        let b2 := if b1.logs.length = 0 then { b1 with logTime := logTime }
                  else b1
        .ok (some { b2 with logs := b2.logs ++ [logLine] }, flushed.2)

/-! ### The per-line loop body of `collectLogs` -/

/-- Go `containsUnprintableCharacters` on a run of whole scalars (the
Docker frame-header bytes it is applied to are ASCII). -/
def containsUnprintableChars (l : List Char) : Bool :=
  l.any fun c => !printOrSpace c

/-- Go `extractLogTimestamp`: `strings.SplitN(line, " ", 2)`; with a space
present the first token and the remainder, otherwise `("", line)`. -/
def extractLogTimestamp (l : List Char) : List Char × List Char :=
  match l.dropWhile (fun c => !(c == ' ')) with
  | [] => ([], l)
  | _ :: t => (l.takeWhile (fun c => !(c == ' ')), t)

/-- Per-container collector state seen by one iteration of the scanner
loop in `collectLogs`: the container's unstructured buffer slot and the
Redis checkpoint value under `"<name>:lastTimestamp"`. -/
structure LineState where
  buf : Option UBuf
  checkpoint : Option String
deriving DecidableEq

/-- One call made to `service.Store` and whether the sink accepted it. -/
structure SinkCall (E : Type) where
  value : StoredLog E
  accepted : Bool
deriving DecidableEq

/-- The frame-strip step of the scanner loop: drop the 8-byte Docker
multiplex header exactly when those first 8 bytes contain non-printable
characters. -/
def framePayload (line : List Char) : List Char :=
  if containsUnprintableChars (takeBytes 8 line) then dropBytes 8 line
  else line

/-- One iteration of the scanner loop in `collectLogs` for a line of
`bytesLen line` bytes: lines of at most 8 bytes are skipped entirely; a
longer line is stripped of its 8-byte frame header when those bytes
contain non-printable characters, split into frame timestamp and payload,
run through `processLogLine`, and then `updateLastLogTimestamp`
unconditionally writes the frame timestamp to the checkpoint (a Redis
write error would only be logged; the write is modelled as succeeding).
`sink` is `service.Store`: its result is only logged by `storeLog`, so it
is recorded in the emitted `SinkCall` and ignored by the control flow. -/
def collectLine (decode : String → Option (List (String × JSONValue ν)))
    (sprint : JSONValue ν → String) (parseTime : String → Bool)
    (flags : List String)
    (sink : StoredLog (List (String × JSONValue ν)) → Bool)
    (st : LineState) (line : List Char) (cid cname : String) :
    Except Unit (LineState × List (SinkCall (List (String × JSONValue ν)))) :=
  if 8 < bytesLen line then
    (processLogLine decode sprint parseTime flags st.buf
        (String.mk (extractLogTimestamp (framePayload line)).1)
        (String.mk (extractLogTimestamp (framePayload line)).2)
        cid cname).map
      fun pr =>
        ({ buf := pr.1,
           checkpoint :=
             some (String.mk (extractLogTimestamp (framePayload line)).1) },
         pr.2.map fun v => { value := v, accepted := sink v })
  else .ok (st, [])

/-! ### Worker exit and Go panic propagation (`collectLogs`)

`collectLogs` registers one deferred function that removes the container
from `activeContainers.entries` and deletes its `unstructuredLogs` entry.
Go runs deferred functions during panic unwinding, and the collector
contains no `recover()`, so after the cleanup the panic keeps
propagating out of the goroutine. -/

structure WorkerMaps where
  activeContainers : List String
  unstructuredBufs : List (String × UBuf)
deriving DecidableEq

/-- The deferred cleanup of `collectLogs`: `delete` the container from
both maps. -/
def cleanupWorkerState (cid : String) (st : WorkerMaps) : WorkerMaps :=
  { activeContainers := st.activeContainers.filter (fun x => !(x == cid)),
    unstructuredBufs := st.unstructuredBufs.filter (fun kv => !(kv.1 == cid)) }

/-- Exit of the `collectLogs` goroutine with `body` the outcome of its
main body (`.error p` a panic carrying value `p`): the deferred cleanup
always runs, and the outcome is returned unchanged because no `recover()`
exists to intercept a panic. -/
def collectLogsExit (cid : String) (body : Except String Unit)
    (st : WorkerMaps) : WorkerMaps × Except String Unit :=
  (cleanupWorkerState cid st, body)

/-! ### The monitored set (`MonitoredContainers`) -/

/-- Go `inSlice`. -/
def inSlice (value : String) (slice : List String) : Bool :=
  slice.any (fun item => item == value)

/-- Go `removeFromSlice`: all occurrences of `target` removed, order
kept. -/
def removeFromSlice (slice : List String) (target : String) : List String :=
  slice.filter (fun item => !(item == target))

structure MonitoredSet where
  names : List String
  ids : List String
  blockIds : List String
deriving DecidableEq

/-- The per-name body of the startup loop in `Start`: append the resolved
ID when it is not yet present (name-resolution failures skip the name and
are covered by folding over an arbitrary list of resolved IDs). -/
def startupAddID (st : MonitoredSet) (cid : String) : MonitoredSet :=
  if inSlice cid st.ids then st else { st with ids := st.ids ++ [cid] }

/-- The monitored set right after `Start`'s resolution loop, beginning
from the configured names with no resolved and no blocked IDs. -/
def startupState (names resolved : List String) : MonitoredSet :=
  resolved.foldl startupAddID
    { names := names, ids := [], blockIds := [] }

/-- Go `ensureMonitoredContainerID`: add to `Ids` when absent, remove from
`BlockIDs`. -/
def ensureMonitoredContainerID (st : MonitoredSet) (cid : String) :
    MonitoredSet :=
  let st1 :=
    if inSlice cid st.ids then st else { st with ids := st.ids ++ [cid] }
  { st1 with blockIds := removeFromSlice st1.blockIds cid }

/-- The monitored-set effect of Go `cleanupContainerState`: remove the ID
from `Ids` and `BlockIDs` (the function also clears the worker maps,
modelled by `cleanupWorkerState`). -/
def cleanupMonitored (st : MonitoredSet) (cid : String) : MonitoredSet :=
  { st with ids := removeFromSlice st.ids cid,
            blockIds := removeFromSlice st.blockIds cid }

/-- Outcome of `dockerManager.GetContainerInfo(ctx, id, "name")`. -/
inductive NameLookup where
  | found (name : String)
  | notFound
  | canceled
  | failed
deriving DecidableEq

/-- Go `isMonitoredContainer` with `identifierType == "id"` as one atomic
transition: fast paths against `BlockIDs` and `Ids`, then resolution of
the name (`lk`), then publication under the write lock. -/
def isMonitoredById (st : MonitoredSet) (cid : String) (lk : NameLookup) :
    MonitoredSet × Bool :=
  if inSlice cid st.blockIds then (st, false)
  else if inSlice cid st.ids then (st, true)
  else
    match lk with
    | .notFound => (cleanupMonitored st cid, false)
    | .canceled => (st, false)
    | .failed => (st, false)
    | .found name =>
      if inSlice name st.names then
        (let st1 :=
          if inSlice cid st.ids then st
          else { st with ids := st.ids ++ [cid] }
         { st1 with blockIds := removeFromSlice st1.blockIds cid }, true)
      else
        (if inSlice cid st.blockIds then st
         else { st with blockIds := st.blockIds ++ [cid] }, false)

/-- Monitored-set states reachable through the public operations: the
startup resolution of `Start`, then any interleaving of
`ensureMonitoredContainerID`, the ID path of `isMonitoredContainer`, and
`cleanupContainerState`. -/
inductive ReachableMS : MonitoredSet → Prop where
  | startup (names resolved : List String) :
      ReachableMS (startupState names resolved)
  | ensure {st : MonitoredSet} (cid : String) :
      ReachableMS st → ReachableMS (ensureMonitoredContainerID st cid)
  | monitorCheck {st : MonitoredSet} (cid : String) (lk : NameLookup) :
      ReachableMS st → ReachableMS (isMonitoredById st cid lk).1
  | cleanup {st : MonitoredSet} (cid : String) :
      ReachableMS st → ReachableMS (cleanupMonitored st cid)

/-! ## Theorems -/

/-- Spec-side description of level inference, written from the
specification's words: first match of a case-insensitive substring search
against the ordered keyword list, default INFO. -/
def levelInferenceSpec (message : String) : String :=
  let m := goToLower message
  if strContains m "fatal" then "FATAL"
  else if strContains m "panic" then "PANIC"
  else if strContains m "error" then "ERROR"
  else if strContains m "debug" then "DEBUG"
  else if strContains m "warning" then "WARN"
  else if strContains m "warn" then "WARN"
  else "INFO"

/-- C6: level inference returns the first match of a case-insensitive
substring search against the ordered keyword list
fatal, panic, error, debug, warning, warn (in that order), defaulting to
INFO when no keyword occurs; in particular "Warning: fatal" yields FATAL
because "fatal" is tested first. -/
theorem determineLogLevel_first_match :
    (∀ msg, determineLogLevel msg = levelInferenceSpec msg) ∧
    determineLogLevel "Warning: fatal" = "FATAL" := by
  constructor
  · intro msg
    unfold determineLogLevel levelInferenceSpec logLevels
    cases h1 : strContains (goToLower msg) "fatal" <;>
    cases h2 : strContains (goToLower msg) "panic" <;>
    cases h3 : strContains (goToLower msg) "error" <;>
    cases h4 : strContains (goToLower msg) "debug" <;>
    cases h5 : strContains (goToLower msg) "warning" <;>
    cases h6 : strContains (goToLower msg) "warn" <;>
    simp [List.find?, h1, h2, h3, h4, h5, h6]
  · decide

/-- C9: `processLogLine` requires the unstructured buffer for the
container to exist: when the map entry is absent (for example after
`cleanupContainerState` disposed it on a stop, die, or destroy event), the
very first access `h.unstructuredLogs.entries[containerID].logs`
dereferences a nil pointer and the call panics instead of returning
normally. -/
theorem processLogLine_missing_buffer_panics (ν : Type)
    (decode : String → Option (List (String × JSONValue ν)))
    (sprint : JSONValue ν → String) (parseTime : String → Bool)
    (flags : List String) (logTime logLine cid cname : String) :
    processLogLine decode sprint parseTime flags none logTime logLine
      cid cname = .error () := rfl

/-- C10: a stream line of at most 8 bytes is silently discarded by the
scanner loop of `collectLogs`: no frame stripping, no parser call, no
sink call, and no checkpoint update happen for it. -/
theorem collectLine_short_line_skipped (ν : Type)
    (decode : String → Option (List (String × JSONValue ν)))
    (sprint : JSONValue ν → String) (parseTime : String → Bool)
    (flags : List String)
    (sink : StoredLog (List (String × JSONValue ν)) → Bool)
    (st : LineState) (line : List Char) (cid cname : String)
    (h : bytesLen line ≤ 8) :
    collectLine decode sprint parseTime flags sink st line cid cname =
      .ok (st, []) := by
  unfold collectLine
  rw [if_neg (by omega : ¬ 8 < bytesLen line)]

/-- Witness for `collectLine_short_line_skipped` at an 8-byte line. -/
theorem collectLine_short_line_skipped_witness :
    bytesLen (String.data "12345678") ≤ 8 ∧
    collectLine (fun _ => none) (fun (_ : JSONValue Unit) => "")
      (fun _ => true) [] (fun _ => true)
      { buf := none, checkpoint := none } (String.data "12345678") "c" "n" =
      .ok ({ buf := none, checkpoint := none }, []) :=
  ⟨by decide,
   collectLine_short_line_skipped Unit _ _ _ _ _ _ _ "c" "n" (by decide)⟩

/-! C8: panic at the worker boundary. -/

def wmDemo : WorkerMaps :=
  { activeContainers := ["c1", "c2"],
    unstructuredBufs :=
      [("c1", { containerID := "c1", containerName := "n1", logs := [],
                logTime := "" })] }

/-- C8 counterexample: a panic in the body of `collectLogs` is not caught
at the worker boundary (the collector contains no `recover()`): after the
deferred cleanup the outcome of the goroutine is still the propagating
panic, not a clean end. -/
theorem collectLogs_panic_propagates_cex :
    (collectLogsExit "c1" (Except.error "boom") wmDemo).2 =
      Except.error "boom" := rfl

theorem lookup_filter_out_eq_none {β : Type} (cid : String) :
    ∀ l : List (String × β),
      (l.filter fun kv => !(kv.1 == cid)).lookup cid = none := by
  intro l
  induction l with
  | nil => rfl
  | cons kv t ih =>
    obtain ⟨k, v⟩ := kv
    by_cases h : k = cid
    · simpa [List.filter_cons, h] using ih
    · have hne : (cid == k) = false := by
        simp only [beq_eq_false_iff_ne, ne_eq]
        exact fun e => h e.symm
      simp [List.filter_cons, h, List.lookup, hne, ih]

/-- C8 amended: a panic raised inside the worker body runs the deferred
cleanup (the container is removed from `ActiveWorkers` and its
unstructured buffer is deleted), but the panic is not caught or logged:
it propagates out of the worker unchanged. -/
theorem collectLogs_panic_cleanup_no_recover (cid p : String)
    (st : WorkerMaps) :
    (collectLogsExit cid (Except.error p) st).2 = Except.error p ∧
    cid ∉ (collectLogsExit cid (Except.error p) st).1.activeContainers ∧
    ((collectLogsExit cid (Except.error p) st).1.unstructuredBufs).lookup
      cid = none := by
  refine ⟨rfl, ?_, lookup_filter_out_eq_none cid st.unstructuredBufs⟩
  intro hmem
  simp [collectLogsExit, cleanupWorkerState, List.mem_filter] at hmem

/-! C1: the emptiness invariant at the sink. -/

def blankMsgEntry : LogEntry Unit :=
  { level := "INFO", time := "", caller := "", message := " ",
    traceId := "", containerId := "cid1", containerName := "app1",
    extra := () }

/-- C1 counterexample: `storeLog` only skips entries whose raw message is
empty; an entry whose raw message is a single space sanitizes to the
empty string and still reaches the sink, with empty stored message. -/
theorem storeLog_sanitized_empty_reaches_sink_cex :
    cleanStr " " = "" ∧
    storeLog (fun _ => true) blankMsgEntry =
      some { level := "INFO", timeValid := false, caller := "",
             message := "", traceId := "", containerId := "cid1",
             containerName := "app1", extra := () } := by
  exact ⟨rfl, rfl⟩

/-- C1 amended: `storeLog` drops entries whose raw message is empty, and
every stored entry carries the sanitized message `cleanStr`; an entry
whose nonempty raw message sanitizes to the empty string is still stored
(see the counterexample). -/
theorem storeLog_empty_raw_message_guard {E : Type}
    (parseTime : String → Bool) (e : LogEntry E) :
    (e.message = "" → storeLog parseTime e = none) ∧
    (∀ s, storeLog parseTime e = some s →
      s.message = cleanStr e.message) := by
  constructor
  · intro h; unfold storeLog; rw [if_pos h]
  · intro s hs
    unfold storeLog at hs
    split_ifs at hs
    cases hs
    rfl

def emptyMsgEntry : LogEntry Unit :=
  { level := "", time := "", caller := "", message := "", traceId := "",
    containerId := "cid1", containerName := "app1", extra := () }

/-- Witness for `storeLog_empty_raw_message_guard`. -/
theorem storeLog_empty_raw_message_guard_witness :
    storeLog (fun _ => true) emptyMsgEntry = none :=
  (storeLog_empty_raw_message_guard (fun _ => true) emptyMsgEntry).1 rfl

/-! C2: checkpoint advance versus sink rejection. -/

def jsonBoomPayload : String := "\x7b\"M\":\"boom\"\x7d"

def decodeBoom : String → Option (List (String × JSONValue Unit)) :=
  fun s =>
    if s = jsonBoomPayload then some [("M", JSONValue.str "boom")]
    else none

def bufC : UBuf :=
  { containerID := "cid2", containerName := "app2", logs := [],
    logTime := "" }

def stC : LineState :=
  { buf := some bufC, checkpoint := some "2024-01-01T00:00:00Z" }

def lineC : List Char := ("2024-01-02T00:00:00Z " ++ jsonBoomPayload).data

def storedBoom : StoredLog (List (String × JSONValue Unit)) :=
  { level := "", timeValid := false, caller := "", message := "boom",
    traceId := "", containerId := "cid2", containerName := "app2",
    extra := [] }

/-- C2 counterexample: for a structured line whose entry the sink
rejects, the entry is dropped (the stream continues normally) but the
per-container checkpoint is still advanced to the line's frame timestamp,
away from its previous value. -/
theorem checkpoint_advanced_despite_sink_reject_cex :
    collectLine decodeBoom (fun _ => "") (fun _ => true) [] (fun _ => false)
      stC lineC "cid2" "app2" =
      .ok ({ buf := some bufC, checkpoint := some "2024-01-02T00:00:00Z" },
           [{ value := storedBoom, accepted := false }]) ∧
    ¬ some "2024-01-02T00:00:00Z" = stC.checkpoint := by
  exact ⟨rfl, by decide⟩

/-- C2 amended: a sink rejection is logged and the entry dropped, but the
checkpoint is advanced for every processed line no matter what the sink
answers: whenever the scanner body returns normally on a line longer than
8 bytes, the stored last-timestamp is the line's frame timestamp. -/
theorem collectLine_checkpoint_independent_of_sink (ν : Type)
    (decode : String → Option (List (String × JSONValue ν)))
    (sprint : JSONValue ν → String) (parseTime : String → Bool)
    (flags : List String)
    (sink : StoredLog (List (String × JSONValue ν)) → Bool)
    (st : LineState) (line : List Char) (cid cname : String)
    (st' : LineState) (outs : List (SinkCall (List (String × JSONValue ν))))
    (hlen : 8 < bytesLen line)
    (hok : collectLine decode sprint parseTime flags sink st line cid
      cname = .ok (st', outs)) :
    st'.checkpoint =
      some (String.mk (extractLogTimestamp (framePayload line)).1) := by
  unfold collectLine at hok
  rw [if_pos hlen] at hok
  cases hproc : processLogLine decode sprint parseTime flags st.buf
      (String.mk (extractLogTimestamp (framePayload line)).1)
      (String.mk (extractLogTimestamp (framePayload line)).2) cid cname with
  | error e => rw [hproc] at hok; cases hok
  | ok pr =>
    rw [hproc] at hok
    simp only [Except.map] at hok
    cases hok
    rfl

def lineW : List Char := String.data "2024-01-03T00:00:00Z hello"

def stW : LineState :=
  { buf := some { containerID := "cid3", containerName := "app3",
                  logs := [], logTime := "" },
    checkpoint := none }

def stW' : LineState :=
  { buf := some { containerID := "cid3", containerName := "app3",
                  logs := ["hello"], logTime := "2024-01-03T00:00:00Z" },
    checkpoint := some "2024-01-03T00:00:00Z" }

/-- Witness for `collectLine_checkpoint_independent_of_sink` on an
unstructured line with a rejecting sink. -/
theorem collectLine_checkpoint_independent_of_sink_witness :
    stW'.checkpoint =
      some (String.mk (extractLogTimestamp (framePayload lineW)).1) :=
  collectLine_checkpoint_independent_of_sink Unit (fun _ => none)
    (fun _ => "") (fun _ => true) [] (fun _ => false) stW lineW
    "cid3" "app3" stW' [] (by decide) (by rfl)

/-! C7: disjointness of the monitored and blocked ID sets. -/

theorem inSlice_iff {v : String} {l : List String} :
    inSlice v l = true ↔ v ∈ l := by
  simp [inSlice, List.any_eq_true]

theorem mem_removeFromSlice {x t : String} {l : List String} :
    x ∈ removeFromSlice l t ↔ x ∈ l ∧ ¬ x = t := by
  simp [removeFromSlice, List.mem_filter]

theorem foldl_startupAddID_blockIds :
    ∀ (rs : List String) (st : MonitoredSet),
      (rs.foldl startupAddID st).blockIds = st.blockIds := by
  intro rs
  induction rs with
  | nil => intro st; rfl
  | cons r rs ih =>
    intro st
    rw [List.foldl_cons, ih]
    unfold startupAddID
    split <;> rfl

theorem ensure_ids (st : MonitoredSet) (cid : String) :
    (ensureMonitoredContainerID st cid).ids =
      if inSlice cid st.ids then st.ids else st.ids ++ [cid] := by
  unfold ensureMonitoredContainerID
  split <;> rfl

theorem ensure_blockIds (st : MonitoredSet) (cid : String) :
    (ensureMonitoredContainerID st cid).blockIds =
      removeFromSlice st.blockIds cid := by
  unfold ensureMonitoredContainerID
  split <;> rfl

theorem cleanupMonitored_disjoint (st : MonitoredSet) (cid : String)
    (hdisj : ∀ x, x ∈ st.ids → x ∉ st.blockIds) :
    ∀ x, x ∈ (cleanupMonitored st cid).ids →
      x ∉ (cleanupMonitored st cid).blockIds := by
  intro x hx hb
  simp only [cleanupMonitored] at hx hb
  rw [mem_removeFromSlice] at hx hb
  exact hdisj x hx.1 hb.1

theorem ensureMonitoredContainerID_disjoint (st : MonitoredSet)
    (cid : String) (hdisj : ∀ x, x ∈ st.ids → x ∉ st.blockIds) :
    ∀ x, x ∈ (ensureMonitoredContainerID st cid).ids →
      x ∉ (ensureMonitoredContainerID st cid).blockIds := by
  intro x hx hb
  rw [ensure_ids] at hx
  rw [ensure_blockIds, mem_removeFromSlice] at hb
  obtain ⟨hb1, hb2⟩ := hb
  by_cases hc : inSlice cid st.ids = true
  · rw [if_pos hc] at hx
    exact hdisj x hx hb1
  · rw [if_neg hc] at hx
    rcases List.mem_append.mp hx with hx' | hx'
    · exact hdisj x hx' hb1
    · exact hb2 (List.mem_singleton.mp hx')

theorem isMonitoredById_disjoint (st : MonitoredSet) (cid : String)
    (lk : NameLookup) (hdisj : ∀ x, x ∈ st.ids → x ∉ st.blockIds) :
    ∀ x, x ∈ (isMonitoredById st cid lk).1.ids →
      x ∉ (isMonitoredById st cid lk).1.blockIds := by
  unfold isMonitoredById
  by_cases h1 : inSlice cid st.blockIds = true
  · rw [if_pos h1]
    exact hdisj
  · rw [if_neg h1]
    by_cases h2 : inSlice cid st.ids = true
    · rw [if_pos h2]
      exact hdisj
    · rw [if_neg h2]
      cases lk with
      | notFound => exact cleanupMonitored_disjoint st cid hdisj
      | canceled => exact hdisj
      | failed => exact hdisj
      | found name =>
        dsimp only
        by_cases h3 : inSlice name st.names = true
        · rw [if_pos h3]
          dsimp only
          rw [if_neg h2]
          intro x hx hb
          dsimp only at hx hb
          rw [mem_removeFromSlice] at hb
          obtain ⟨hb1, hb2⟩ := hb
          rcases List.mem_append.mp hx with hx' | hx'
          · exact hdisj x hx' hb1
          · exact hb2 (List.mem_singleton.mp hx')
        · rw [if_neg h3]
          dsimp only
          rw [if_neg h1]
          intro x hx hb
          dsimp only at hx hb
          rcases List.mem_append.mp hb with hb' | hb'
          · exact hdisj x hx hb'
          · have hxc : x = cid := List.mem_singleton.mp hb'
            subst hxc
            exact h2 (inSlice_iff.mpr hx)

/-- C7: starting from the initial monitored set (configured names, no
resolved ids, no blocked ids), after every public operation on the
monitored set (startup resolution, `ensureMonitoredContainerID`, the
ID resolution path of `isMonitoredContainer`, and
`cleanupContainerState`) the resolved IDs and the blocked IDs are
disjoint. -/
theorem monitoredSet_disjoint_invariant (st : MonitoredSet)
    (h : ReachableMS st) :
    ∀ x, x ∈ st.ids → x ∉ st.blockIds := by
  induction h with
  | startup names resolved =>
    intro x hx hb
    unfold startupState at hb
    rw [foldl_startupAddID_blockIds] at hb
    simp at hb
  | ensure cid hst ih => exact ensureMonitoredContainerID_disjoint _ cid ih
  | monitorCheck cid lk hst ih =>
    exact isMonitoredById_disjoint _ cid lk ih
  | cleanup cid hst ih => exact cleanupMonitored_disjoint _ cid ih

/-- Witness for `monitoredSet_disjoint_invariant` at a reachable state
that holds both a resolved and a blocked ID. -/
theorem monitoredSet_disjoint_invariant_witness :
    "id1" ∉ ((isMonitoredById (startupState ["web"] ["id1"]) "id2"
      (NameLookup.found "db")).1).blockIds :=
  monitoredSet_disjoint_invariant _
    (ReachableMS.monitorCheck "id2" (NameLookup.found "db")
      (ReachableMS.startup ["web"] ["id1"]))
    "id1" (by decide)

/-! C5: the structured field mapping. -/

theorem apply_level_key (sprint : JSONValue ν → String)
    (e : LogEntry (List (String × JSONValue ν))) (v : JSONValue ν) :
    (applyJSONField sprint e ("L", v)).level =
      stringifyJSONValue sprint v := by
  unfold applyJSONField
  rw [if_pos rfl]

theorem apply_level_other (sprint : JSONValue ν → String)
    (e : LogEntry (List (String × JSONValue ν)))
    (kv : String × JSONValue ν) (h : ¬ kv.1 = "L") :
    (applyJSONField sprint e kv).level = e.level := by
  unfold applyJSONField
  split_ifs <;> simp_all

theorem apply_time_key (sprint : JSONValue ν → String)
    (e : LogEntry (List (String × JSONValue ν))) (v : JSONValue ν) :
    (applyJSONField sprint e ("T", v)).time =
      stringifyJSONValue sprint v := by
  unfold applyJSONField
  dsimp only
  rw [if_neg (by decide), if_pos rfl]

theorem apply_time_other (sprint : JSONValue ν → String)
    (e : LogEntry (List (String × JSONValue ν)))
    (kv : String × JSONValue ν) (h : ¬ kv.1 = "T") :
    (applyJSONField sprint e kv).time = e.time := by
  unfold applyJSONField
  split_ifs <;> simp_all

theorem apply_caller_key (sprint : JSONValue ν → String)
    (e : LogEntry (List (String × JSONValue ν))) (v : JSONValue ν) :
    (applyJSONField sprint e ("C", v)).caller =
      stringifyJSONValue sprint v := by
  unfold applyJSONField
  dsimp only
  rw [if_neg (by decide), if_neg (by decide), if_pos rfl]

theorem apply_caller_other (sprint : JSONValue ν → String)
    (e : LogEntry (List (String × JSONValue ν)))
    (kv : String × JSONValue ν) (h : ¬ kv.1 = "C") :
    (applyJSONField sprint e kv).caller = e.caller := by
  unfold applyJSONField
  split_ifs <;> simp_all

theorem apply_message_key (sprint : JSONValue ν → String)
    (e : LogEntry (List (String × JSONValue ν))) (v : JSONValue ν) :
    (applyJSONField sprint e ("M", v)).message =
      stringifyJSONValue sprint v := by
  unfold applyJSONField
  dsimp only
  rw [if_neg (by decide), if_neg (by decide), if_neg (by decide),
     if_pos rfl]

theorem apply_message_other (sprint : JSONValue ν → String)
    (e : LogEntry (List (String × JSONValue ν)))
    (kv : String × JSONValue ν) (h : ¬ kv.1 = "M") :
    (applyJSONField sprint e kv).message = e.message := by
  unfold applyJSONField
  split_ifs <;> simp_all

theorem apply_traceId_key (sprint : JSONValue ν → String)
    (e : LogEntry (List (String × JSONValue ν))) (v : JSONValue ν) :
    (applyJSONField sprint e ("TraceID", v)).traceId =
      stringifyJSONValue sprint v := by
  unfold applyJSONField
  dsimp only
  rw [if_neg (by decide), if_neg (by decide), if_neg (by decide),
     if_neg (by decide), if_pos rfl]

theorem apply_traceId_other (sprint : JSONValue ν → String)
    (e : LogEntry (List (String × JSONValue ν)))
    (kv : String × JSONValue ν) (h : ¬ kv.1 = "TraceID") :
    (applyJSONField sprint e kv).traceId = e.traceId := by
  unfold applyJSONField
  split_ifs <;> simp_all

theorem foldl_proj_of_absent (sprint : JSONValue ν → String)
    (proj : LogEntry (List (String × JSONValue ν)) → String) (key : String)
    (hother : ∀ e kv, ¬ kv.1 = key →
      proj (applyJSONField sprint e kv) = proj e) :
    ∀ (raw : List (String × JSONValue ν)) e₀, ¬ key ∈ raw.map Prod.fst →
      proj (raw.foldl (applyJSONField sprint) e₀) = proj e₀ := by
  intro raw
  induction raw with
  | nil => intro e₀ _; rfl
  | cons kv t ih =>
    intro e₀ habs
    rw [List.map_cons] at habs
    rw [List.foldl_cons]
    rw [ih _ (fun hm => habs (List.mem_cons_of_mem _ hm))]
    exact hother e₀ kv (fun e => habs (e ▸ List.mem_cons_self _ _))

theorem foldl_proj_lookup (sprint : JSONValue ν → String)
    (proj : LogEntry (List (String × JSONValue ν)) → String) (key : String)
    (hkey : ∀ e v, proj (applyJSONField sprint e (key, v)) =
      stringifyJSONValue sprint v)
    (hother : ∀ e kv, ¬ kv.1 = key →
      proj (applyJSONField sprint e kv) = proj e) :
    ∀ (raw : List (String × JSONValue ν)) e₀, (raw.map Prod.fst).Nodup →
      proj (raw.foldl (applyJSONField sprint) e₀) =
        (match raw.lookup key with
         | some v => stringifyJSONValue sprint v
         | none => proj e₀) := by
  intro raw
  induction raw with
  | nil => intro e₀ _; rfl
  | cons kv t ih =>
    intro e₀ hnd
    obtain ⟨k, v⟩ := kv
    rw [List.map_cons, List.nodup_cons] at hnd
    obtain ⟨hk, hnd'⟩ := hnd
    by_cases hke : k = key
    · subst hke
      rw [List.foldl_cons,
          foldl_proj_of_absent sprint proj k hother t _ hk, hkey]
      simp [List.lookup]
    · have hbk : (key == k) = false := by
        simp only [beq_eq_false_iff_ne, ne_eq]
        exact fun e => hke e.symm
      rw [List.foldl_cons, ih _ hnd']
      cases hl : List.lookup key t with
      | none =>
        simp only [List.lookup, hbk, hl]
        exact hother e₀ (k, v) hke
      | some w => simp only [List.lookup, hbk, hl]

theorem foldl_apply_extra (sprint : JSONValue ν → String) :
    ∀ (raw : List (String × JSONValue ν)) e₀,
      (raw.foldl (applyJSONField sprint) e₀).extra =
        e₀.extra ++ raw.filter (fun kv =>
          !(kv.1 == "L" || kv.1 == "T" || kv.1 == "C" || kv.1 == "M" ||
            kv.1 == "TraceID")) := by
  intro raw
  induction raw with
  | nil => intro e₀; simp
  | cons kv t ih =>
    intro e₀
    rw [List.foldl_cons, ih]
    unfold applyJSONField
    split_ifs <;> simp_all [List.filter_cons]

theorem foldl_apply_containerId (sprint : JSONValue ν → String) :
    ∀ (raw : List (String × JSONValue ν)) e₀,
      (raw.foldl (applyJSONField sprint) e₀).containerId =
        e₀.containerId := by
  intro raw
  induction raw with
  | nil => intro e₀; rfl
  | cons kv t ih =>
    intro e₀
    rw [List.foldl_cons, ih]
    unfold applyJSONField
    split_ifs <;> rfl

theorem foldl_apply_containerName (sprint : JSONValue ν → String) :
    ∀ (raw : List (String × JSONValue ν)) e₀,
      (raw.foldl (applyJSONField sprint) e₀).containerName =
        e₀.containerName := by
  intro raw
  induction raw with
  | nil => intro e₀; rfl
  | cons kv t ih =>
    intro e₀
    rw [List.foldl_cons, ih]
    unfold applyJSONField
    split_ifs <;> rfl

/-- Field lookup through `stringifyJSONValue`, the characterization of
one mapped string field: the coerced value under the key, or the empty
string when the key is absent. -/
def lookupStr (sprint : JSONValue ν → String)
    (raw : List (String × JSONValue ν)) (key : String) : String :=
  match raw.lookup key with
  | some v => stringifyJSONValue sprint v
  | none => ""

/-- C5: for every payload decoded as a JSON object, `tryParseLogToJson`
maps key L to level, T to time, C to caller, M to message, TraceID to
traceId, copies every other key unchanged into extra, and stamps the
container provenance; values for the string fields are coerced to text
(strings kept, null becoming the empty string, numbers and booleans going
through their `fmt.Sprint` printable form), and the mapping is total: no
non-string value for a recognized key can fail it. -/
theorem tryParseLogToJson_field_mapping (ν : Type)
    (sprint : JSONValue ν → String) (raw : List (String × JSONValue ν))
    (cid cname : String) (hnd : (raw.map Prod.fst).Nodup) :
    (tryParseLogToJson sprint raw cid cname).level =
      lookupStr sprint raw "L" ∧
    (tryParseLogToJson sprint raw cid cname).time =
      lookupStr sprint raw "T" ∧
    (tryParseLogToJson sprint raw cid cname).caller =
      lookupStr sprint raw "C" ∧
    (tryParseLogToJson sprint raw cid cname).message =
      lookupStr sprint raw "M" ∧
    (tryParseLogToJson sprint raw cid cname).traceId =
      lookupStr sprint raw "TraceID" ∧
    (tryParseLogToJson sprint raw cid cname).extra =
      raw.filter (fun kv =>
        !(kv.1 == "L" || kv.1 == "T" || kv.1 == "C" || kv.1 == "M" ||
          kv.1 == "TraceID")) ∧
    (tryParseLogToJson sprint raw cid cname).containerId = cid ∧
    (tryParseLogToJson sprint raw cid cname).containerName = cname ∧
    stringifyJSONValue sprint (JSONValue.null (ν := ν)) = "" ∧
    (∀ s, stringifyJSONValue sprint (JSONValue.str (ν := ν) s) = s) ∧
    (∀ b, stringifyJSONValue sprint (JSONValue.boolVal (ν := ν) b) =
      sprint (JSONValue.boolVal b)) ∧
    (∀ x, stringifyJSONValue sprint (JSONValue.num x) =
      sprint (JSONValue.num x)) := by
  unfold tryParseLogToJson
  refine ⟨?_, ?_, ?_, ?_, ?_, ?_, ?_, ?_, rfl, fun s => rfl, fun b => rfl,
    fun x => rfl⟩
  · have h := foldl_proj_lookup sprint (fun e => e.level) "L"
      (apply_level_key sprint) (apply_level_other sprint) raw
      { level := "", time := "", caller := "", message := "", traceId := "",
        containerId := cid, containerName := cname, extra := [] } hnd
    dsimp only at h
    rw [h]
    unfold lookupStr
    cases raw.lookup "L" <;> rfl
  · have h := foldl_proj_lookup sprint (fun e => e.time) "T"
      (apply_time_key sprint) (apply_time_other sprint) raw
      { level := "", time := "", caller := "", message := "", traceId := "",
        containerId := cid, containerName := cname, extra := [] } hnd
    dsimp only at h
    rw [h]
    unfold lookupStr
    cases raw.lookup "T" <;> rfl
  · have h := foldl_proj_lookup sprint (fun e => e.caller) "C"
      (apply_caller_key sprint) (apply_caller_other sprint) raw
      { level := "", time := "", caller := "", message := "", traceId := "",
        containerId := cid, containerName := cname, extra := [] } hnd
    dsimp only at h
    rw [h]
    unfold lookupStr
    cases raw.lookup "C" <;> rfl
  · have h := foldl_proj_lookup sprint (fun e => e.message) "M"
      (apply_message_key sprint) (apply_message_other sprint) raw
      { level := "", time := "", caller := "", message := "", traceId := "",
        containerId := cid, containerName := cname, extra := [] } hnd
    dsimp only at h
    rw [h]
    unfold lookupStr
    cases raw.lookup "M" <;> rfl
  · have h := foldl_proj_lookup sprint (fun e => e.traceId) "TraceID"
      (apply_traceId_key sprint) (apply_traceId_other sprint) raw
      { level := "", time := "", caller := "", message := "", traceId := "",
        containerId := cid, containerName := cname, extra := [] } hnd
    dsimp only at h
    rw [h]
    unfold lookupStr
    cases raw.lookup "TraceID" <;> rfl
  · rw [foldl_apply_extra]
    rfl
  · rw [foldl_apply_containerId]
  · rw [foldl_apply_containerName]

def rawDemo : List (String × JSONValue Unit) :=
  [("M", JSONValue.str "hi"), ("k", JSONValue.null)]

/-- Witness for `tryParseLogToJson_field_mapping` on a two-key object. -/
theorem tryParseLogToJson_field_mapping_witness :
    (tryParseLogToJson (fun _ => "") rawDemo "c" "n").message =
      lookupStr (fun _ => "") rawDemo "M" :=
  (tryParseLogToJson_field_mapping Unit (fun _ => "") rawDemo "c" "n"
    (by decide)).2.2.2.1

/-! C3: sanitization idempotence. -/

theorem ansiScan_no_esc : ∀ (fuel : Nat) (l : List Char),
    (∀ c ∈ l, ¬ c = escChar) → ansiScan fuel l = l := by
  intro fuel
  induction fuel with
  | zero =>
    intro l _
    cases l <;> rfl
  | succ n ih =>
    intro l h
    cases l with
    | nil => rfl
    | cons c rest =>
      have hc : ¬ c = escChar := h c (List.mem_cons_self c rest)
      simp only [ansiScan]
      rw [if_neg hc, ih rest (fun x hx => h x (List.mem_cons_of_mem c hx))]

theorem ansiStrip_no_esc {l : List Char} (h : ∀ c ∈ l, ¬ c = escChar) :
    ansiStrip l = l := ansiScan_no_esc l.length l h

theorem mem_replaceNonPrint {c : Char} {l : List Char}
    (h : c ∈ replaceNonPrint l) : printOrSpace c = true := by
  unfold replaceNonPrint at h
  obtain ⟨a, _, ha⟩ := List.mem_map.mp h
  by_cases hp : printOrSpace a = true
  · rw [if_pos hp] at ha
    rwa [← ha]
  · rw [if_neg hp] at ha
    rw [← ha]
    decide

theorem replaceNonPrint_id : ∀ {l : List Char},
    (∀ c ∈ l, printOrSpace c = true) → replaceNonPrint l = l := by
  intro l
  induction l with
  | nil => intro _; rfl
  | cons c t ih =>
    intro h
    have hstep : replaceNonPrint (c :: t) =
        (if printOrSpace c = true then c else ' ') :: replaceNonPrint t := rfl
    rw [hstep, if_pos (h c (List.mem_cons_self c t)),
       ih (fun x hx => h x (List.mem_cons_of_mem c hx))]

theorem mem_trimSpace {c : Char} {l : List Char} (h : c ∈ trimSpace l) :
    c ∈ l := by
  unfold trimSpace trimRight at h
  have h1 := (List.rdropWhile_prefix goIsSpace
    (l.dropWhile goIsSpace)).sublist.subset h
  exact (List.dropWhile_sublist goIsSpace).subset h1

theorem trimSpace_trimSpace (l : List Char) :
    trimSpace (trimSpace l) = trimSpace l := by
  unfold trimSpace trimRight
  set y := l.dropWhile goIsSpace with hy
  have hyy : y.dropWhile goIsSpace = y := List.dropWhile_idempotent _ _
  have hdw : (y.rdropWhile goIsSpace).dropWhile goIsSpace =
      y.rdropWhile goIsSpace := by
    obtain ⟨r, hr⟩ := List.rdropWhile_prefix goIsSpace y
    cases ht : y.rdropWhile goIsSpace with
    | nil => rfl
    | cons a z =>
      rw [ht] at hr
      have hy2 : y = a :: (z ++ r) := by rw [← hr]; simp
      by_cases hpa : goIsSpace a = true
      · exfalso
        have hdrop : y.dropWhile goIsSpace = (z ++ r).dropWhile goIsSpace := by
          rw [hy2, List.dropWhile_cons, if_pos hpa]
        rw [hyy] at hdrop
        have hle := (List.dropWhile_sublist (l := z ++ r) goIsSpace).length_le
        rw [← hdrop, hy2] at hle
        simp at hle
      · rw [List.dropWhile_cons, if_neg (by simp [hpa])]
  rw [hdw, List.rdropWhile_idempotent]

theorem truncate_eq_self {l : List Char}
    (h : bytesLen l ≤ maxLogMessageBytes) :
    truncateUTF8ByBytes l maxLogMessageBytes = l := by
  unfold truncateUTF8ByBytes
  rw [if_pos (by simp [h])]

/-- C3 amended: the sanitizer is idempotent on every input whose
intermediate result (after ANSI removal, non-printable replacement, and
trimming) fits in the 64,000-byte limit, i.e. whenever truncation does
not fire; truncation itself can expose trailing white space and break
idempotence (see the counterexample). -/
theorem cleanString_idem_of_no_truncation (l : List Char)
    (h : bytesLen (trimSpace (replaceNonPrint (ansiStrip l))) ≤
      maxLogMessageBytes) :
    cleanString (cleanString l) = cleanString l := by
  by_cases hl : l = []
  · subst hl; rfl
  · set t := trimSpace (replaceNonPrint (ansiStrip l)) with ht
    have hcl : cleanString l = t := by
      unfold cleanString
      rw [if_neg hl, ← ht, truncate_eq_self h]
    rw [hcl]
    by_cases htn : t = []
    · rw [htn]; rfl
    · have hmem : ∀ c ∈ t, printOrSpace c = true := by
        intro c hc
        rw [ht] at hc
        exact mem_replaceNonPrint (mem_trimSpace hc)
      have hesc : ∀ c ∈ t, ¬ c = escChar := by
        intro c hc heq
        have hc' := hmem c hc
        rw [heq] at hc'
        exact absurd hc' (by decide)
      unfold cleanString
      rw [if_neg htn, ansiStrip_no_esc hesc, replaceNonPrint_id hmem,
         show trimSpace t = t from by rw [ht]; exact trimSpace_trimSpace _]
      exact truncate_eq_self h

/-- Witness for `cleanString_idem_of_no_truncation` on a short string. -/
theorem cleanString_idem_of_no_truncation_witness :
    bytesLen (trimSpace (replaceNonPrint (ansiStrip (String.data "ok")))) ≤
      maxLogMessageBytes ∧
    cleanString (cleanString (String.data "ok")) =
      cleanString (String.data "ok") :=
  ⟨by decide, cleanString_idem_of_no_truncation _ (by decide)⟩

/-! The C3 counterexample: 63,999 letters followed by four spaces and a
letter.  Sanitizing once truncates right after the first space, leaving a
trailing space; sanitizing twice trims that space away. -/

def repA : List Char := List.replicate 63999 'a'

def sCex : List Char := repA ++ [' ', ' ', ' ', ' ', 'b']

theorem mem_sCex : ∀ c ∈ sCex, c = 'a' ∨ c = ' ' ∨ c = 'b' := by
  intro c hc
  simp only [sCex, repA, List.mem_append, List.mem_replicate] at hc
  rcases hc with ⟨_, h⟩ | h
  · exact Or.inl h
  · simp only [List.mem_cons, List.not_mem_nil, or_false] at h
    rcases h with h | h | h | h | h <;> simp [h]

theorem sCex_no_esc : ∀ c ∈ sCex, ¬ c = escChar := by
  intro c hc heq
  rcases mem_sCex c hc with h | h | h <;> rw [heq] at h <;> exact absurd h (by decide)

theorem sCex_printable : ∀ c ∈ sCex, printOrSpace c = true := by
  intro c hc
  rcases mem_sCex c hc with h | h | h <;> rw [h] <;> decide

theorem replicate_63999_cons :
    List.replicate 63999 'a' = 'a' :: List.replicate 63998 'a' := by
  rw [show (63999 : Nat) = 63998 + 1 from by norm_num, List.replicate_succ]

theorem replicate_63999_concat :
    List.replicate 63999 'a' = List.replicate 63998 'a' ++ ['a'] := by
  rw [show (63999 : Nat) = 63998 + 1 from by norm_num, List.replicate_succ']

theorem bytesLen_replicate_a (n : Nat) :
    bytesLen (List.replicate n 'a') = n := by
  unfold bytesLen
  rw [List.map_replicate, show utf8Len 'a' = 1 from by decide,
     List.sum_replicate]
  simp

theorem bytesLen_sCex : bytesLen sCex = 64004 := by
  unfold sCex bytesLen
  rw [List.map_append, List.sum_append]
  have h1 := bytesLen_replicate_a 63999
  unfold bytesLen at h1
  rw [repA, h1]
  decide

theorem trimSpace_sCex : trimSpace sCex = sCex := by
  unfold trimSpace trimRight
  have hdrop : sCex.dropWhile goIsSpace = sCex := by
    rw [show sCex = 'a' :: (List.replicate 63998 'a' ++ [' ', ' ', ' ', ' ', 'b'])
        from by rw [sCex, repA, replicate_63999_cons]; rfl]
    rw [List.dropWhile_cons, if_neg (by decide)]
  rw [hdrop]
  rw [show sCex = (repA ++ [' ', ' ', ' ', ' ']) ++ ['b'] from by
      rw [sCex]; simp]
  rw [List.rdropWhile_concat_neg _ _ _ (by decide)]

theorem takeBytes_replicate_a : ∀ (n b : Nat) (r : List Char), n ≤ b →
    takeBytes b (List.replicate n 'a' ++ r) =
      List.replicate n 'a' ++ takeBytes (b - n) r := by
  intro n
  induction n with
  | zero => intro b r _; simp
  | succ m ih =>
    intro b r hb
    rw [List.replicate_succ, List.cons_append]
    have h1 : utf8Len 'a' = 1 := by decide
    simp only [takeBytes, h1]
    rw [if_pos (by omega : 1 ≤ b), ih (b - 1) r (by omega),
       show b - 1 - m = b - (m + 1) from by omega]
    rfl

theorem cleanString_sCex : cleanString sCex = repA ++ [' '] := by
  unfold cleanString
  rw [if_neg (by
    rw [sCex, repA, replicate_63999_cons, List.cons_append]
    exact List.cons_ne_nil _ _)]
  rw [ansiStrip_no_esc sCex_no_esc, replaceNonPrint_id sCex_printable,
     trimSpace_sCex]
  unfold truncateUTF8ByBytes
  rw [if_neg (by rw [bytesLen_sCex]; decide)]
  rw [show maxLogMessageBytes = 64000 from rfl]
  rw [show sCex = List.replicate 63999 'a' ++ [' ', ' ', ' ', ' ', 'b']
      from rfl]
  rw [takeBytes_replicate_a 63999 64000 _ (by norm_num)]
  rw [show (64000 : Nat) - 63999 = 1 from by norm_num]
  rw [show takeBytes 1 [' ', ' ', ' ', ' ', 'b'] = [' '] from by decide]
  rfl

theorem mem_repA_sp : ∀ c ∈ repA ++ [' '], printOrSpace c = true := by
  intro c hc
  simp only [repA, List.mem_append, List.mem_replicate, List.mem_singleton]
    at hc
  rcases hc with ⟨_, h⟩ | h <;> rw [h] <;> decide

theorem repA_sp_no_esc : ∀ c ∈ repA ++ [' '], ¬ c = escChar := by
  intro c hc heq
  have h := mem_repA_sp c hc
  rw [heq] at h
  exact absurd h (by decide)

theorem cleanString_repA_sp : cleanString (repA ++ [' ']) = repA := by
  unfold cleanString
  rw [if_neg (by
    rw [repA, replicate_63999_cons, List.cons_append]
    exact List.cons_ne_nil _ _)]
  rw [ansiStrip_no_esc repA_sp_no_esc, replaceNonPrint_id mem_repA_sp]
  have htrim : trimSpace (repA ++ [' ']) = repA := by
    unfold trimSpace trimRight
    have hdrop : (repA ++ [' ']).dropWhile goIsSpace = repA ++ [' '] := by
      rw [show repA ++ [' '] =
          'a' :: (List.replicate 63998 'a' ++ [' '])
          from by rw [repA, replicate_63999_cons]; rfl]
      rw [List.dropWhile_cons, if_neg (by decide)]
    rw [hdrop, List.rdropWhile_concat_pos _ _ _ (by decide)]
    rw [show repA = List.replicate 63998 'a' ++ ['a'] from
        by rw [repA, replicate_63999_concat]]
    rw [List.rdropWhile_concat_neg _ _ _ (by decide)]
  rw [htrim]
  exact truncate_eq_self (by rw [repA, bytesLen_replicate_a]; decide)

/-- C3 counterexample: the sanitizer is not idempotent.  On 63,999
letters followed by "    b", one pass truncates to 64,000 bytes and ends
with a space; a second pass trims that space, shortening the string. -/
theorem repA_length : repA.length = 63999 := by
  rw [repA, List.length_replicate]

theorem repA_sp_length : (repA ++ [' ']).length = 64000 := by
  rw [List.length_append, repA_length, List.length_singleton]

theorem cleanString_not_idempotent_cex :
    ¬ cleanString (cleanString sCex) = cleanString sCex := by
  rw [cleanString_sCex, cleanString_repA_sp]
  intro heq
  have hlen := congrArg List.length heq
  rw [repA_length, repA_sp_length] at hlen
  omega

/-! C4: truncation safety at byte level. -/

theorem bytesLen_cons (c : Char) (t : List Char) :
    bytesLen (c :: t) = utf8Len c + bytesLen t := by
  unfold bytesLen
  rw [List.map_cons, List.sum_cons]

theorem length_utf8EncodeChar (c : Char) :
    (utf8EncodeChar c).length = utf8Len c := by
  unfold utf8EncodeChar utf8Len
  dsimp only
  split_ifs <;> rfl

theorem length_utf8Encode : ∀ l : List Char,
    (utf8Encode l).length = bytesLen l := by
  intro l
  induction l with
  | nil => rfl
  | cons c t ih =>
    simp only [utf8Encode]
    rw [List.length_append, length_utf8EncodeChar, ih, bytesLen_cons]

theorem char_valid (c : Char) :
    c.toNat < 0xD800 ∨ (0xDFFF < c.toNat ∧ c.toNat < 0x110000) := by
  have h := c.valid
  unfold UInt32.isValidChar Nat.isValidChar at h
  exact h

theorem validScan_zero_params (lo hi : Nat) (l : List Nat) :
    validScan 0 lo hi l = validScan 0 0 0 l := by
  cases l <;> rfl

theorem validUtf8_encodeChar_append (c : Char) (r : List Nat) :
    validUtf8 (utf8EncodeChar c ++ r) = validUtf8 r := by
  have hv := char_valid c
  unfold validUtf8 utf8EncodeChar
  dsimp only
  by_cases h1 : c.toNat < 0x80
  · rw [if_pos h1, List.singleton_append]
    simp only [validScan]
    rw [if_pos (by omega : c.toNat ≤ 0x7F)]
  · rw [if_neg h1]
    by_cases h2 : c.toNat < 0x800
    · rw [if_pos h2, List.cons_append, List.singleton_append]
      simp only [validScan]
      rw [if_neg (by omega),
         if_pos (by constructor <;> omega :
           0xC2 ≤ 0xC0 + c.toNat / 0x40 ∧ 0xC0 + c.toNat / 0x40 ≤ 0xDF),
         if_pos (by constructor <;> omega :
           0x80 ≤ 0x80 + c.toNat % 0x40 ∧ 0x80 + c.toNat % 0x40 ≤ 0xBF)]
      exact validScan_zero_params _ _ r
    · by_cases h3 : c.toNat < 0x10000
      · rw [if_neg h2, if_pos h3, List.cons_append, List.cons_append,
           List.singleton_append]
        have hlo : contLo (0xE0 + c.toNat / 0x1000) ≤
            0x80 + c.toNat / 0x40 % 0x40 := by
          unfold contLo
          by_cases hE0 : 0xE0 + c.toNat / 0x1000 = 0xE0
          · rw [if_pos hE0]
            omega
          · rw [if_neg hE0,
               if_neg (by omega : ¬ 0xE0 + c.toNat / 0x1000 = 0xF0)]
            omega
        have hhi : 0x80 + c.toNat / 0x40 % 0x40 ≤
            contHi (0xE0 + c.toNat / 0x1000) := by
          unfold contHi
          by_cases hED : 0xE0 + c.toNat / 0x1000 = 0xED
          · rw [if_pos hED]
            rcases hv with hv | hv <;> omega
          · rw [if_neg hED,
               if_neg (by omega : ¬ 0xE0 + c.toNat / 0x1000 = 0xF4)]
            omega
        simp only [validScan]
        rw [if_neg (by omega),
           if_neg (by omega :
             ¬ (0xC2 ≤ 0xE0 + c.toNat / 0x1000 ∧
                0xE0 + c.toNat / 0x1000 ≤ 0xDF)),
           if_pos (by constructor <;> omega :
             0xE0 ≤ 0xE0 + c.toNat / 0x1000 ∧
               0xE0 + c.toNat / 0x1000 ≤ 0xEF),
           if_pos ⟨hlo, hhi⟩,
           if_pos (by constructor <;> omega :
             0x80 ≤ 0x80 + c.toNat % 0x40 ∧ 0x80 + c.toNat % 0x40 ≤ 0xBF)]
        exact validScan_zero_params _ _ r
      · rw [if_neg h2, if_neg h3, List.cons_append, List.cons_append,
           List.cons_append, List.singleton_append]
        have hub : c.toNat < 0x110000 := by
          rcases hv with hv | hv
          · omega
          · exact hv.2
        have hlo : contLo (0xF0 + c.toNat / 0x40000) ≤
            0x80 + c.toNat / 0x1000 % 0x40 := by
          unfold contLo
          rw [if_neg (by omega : ¬ 0xF0 + c.toNat / 0x40000 = 0xE0)]
          by_cases hF0 : 0xF0 + c.toNat / 0x40000 = 0xF0
          · rw [if_pos hF0]
            omega
          · rw [if_neg hF0]
            omega
        have hhi : 0x80 + c.toNat / 0x1000 % 0x40 ≤
            contHi (0xF0 + c.toNat / 0x40000) := by
          unfold contHi
          rw [if_neg (by omega : ¬ 0xF0 + c.toNat / 0x40000 = 0xED)]
          by_cases hF4 : 0xF0 + c.toNat / 0x40000 = 0xF4
          · rw [if_pos hF4]
            omega
          · rw [if_neg hF4]
            omega
        simp only [validScan]
        rw [if_neg (by omega),
           if_neg (by omega :
             ¬ (0xC2 ≤ 0xF0 + c.toNat / 0x40000 ∧
                0xF0 + c.toNat / 0x40000 ≤ 0xDF)),
           if_neg (by omega :
             ¬ (0xE0 ≤ 0xF0 + c.toNat / 0x40000 ∧
                0xF0 + c.toNat / 0x40000 ≤ 0xEF)),
           if_pos (by constructor <;> omega :
             0xF0 ≤ 0xF0 + c.toNat / 0x40000 ∧
               0xF0 + c.toNat / 0x40000 ≤ 0xF4),
           if_pos ⟨hlo, hhi⟩,
           if_pos (by constructor <;> omega :
             0x80 ≤ 0x80 + c.toNat / 0x40 % 0x40 ∧
               0x80 + c.toNat / 0x40 % 0x40 ≤ 0xBF),
           if_pos (by constructor <;> omega :
             0x80 ≤ 0x80 + c.toNat % 0x40 ∧ 0x80 + c.toNat % 0x40 ≤ 0xBF)]
        exact validScan_zero_params _ _ r

theorem validUtf8_encode_append : ∀ (l : List Char) (r : List Nat),
    validUtf8 (utf8Encode l ++ r) = validUtf8 r := by
  intro l
  induction l with
  | nil => intro r; rfl
  | cons c t ih =>
    intro r
    simp only [utf8Encode]
    rw [List.append_assoc, validUtf8_encodeChar_append, ih]

theorem validUtf8_encode (l : List Char) :
    validUtf8 (utf8Encode l) = true := by
  have h := validUtf8_encode_append l []
  rw [List.append_nil] at h
  rw [h]
  rfl

theorem takeBytes_cons_of_le {c : Char} {t : List Char} {b : Nat}
    (h : utf8Len c ≤ b) :
    takeBytes b (c :: t) = c :: takeBytes (b - utf8Len c) t := by
  simp only [takeBytes]
  rw [if_pos h]

theorem takeBytes_cons_of_gt {c : Char} {t : List Char} {b : Nat}
    (h : ¬ utf8Len c ≤ b) : takeBytes b (c :: t) = [] := by
  simp only [takeBytes]
  rw [if_neg h]

theorem take_utf8Encode_split : ∀ (l : List Char) (b : Nat),
    b < bytesLen l →
    ∃ c k, k < utf8Len c ∧
      (utf8Encode l).take b =
        utf8Encode (takeBytes b l) ++ (utf8EncodeChar c).take k ∧
      (utf8Encode (takeBytes b l)).length + k = b := by
  intro l
  induction l with
  | nil =>
    intro b hb
    rw [show bytesLen ([] : List Char) = 0 from rfl] at hb
    exact absurd hb (by omega)
  | cons c t ih =>
    intro b hb
    rw [bytesLen_cons] at hb
    by_cases hcb : utf8Len c ≤ b
    · obtain ⟨cx, k, hk, hsplit, hlen⟩ := ih (b - utf8Len c) (by omega)
      refine ⟨cx, k, hk, ?_, ?_⟩
      · rw [show utf8Encode (c :: t) = utf8EncodeChar c ++ utf8Encode t
            from rfl]
        rw [List.take_append_eq_append_take,
           List.take_of_length_le (by rw [length_utf8EncodeChar]; omega),
           length_utf8EncodeChar, hsplit, takeBytes_cons_of_le hcb]
        rw [show utf8Encode (c :: takeBytes (b - utf8Len c) t) =
            utf8EncodeChar c ++ utf8Encode (takeBytes (b - utf8Len c) t)
            from rfl]
        rw [List.append_assoc]
      · rw [takeBytes_cons_of_le hcb]
        rw [show utf8Encode (c :: takeBytes (b - utf8Len c) t) =
            utf8EncodeChar c ++ utf8Encode (takeBytes (b - utf8Len c) t)
            from rfl]
        rw [List.length_append, length_utf8EncodeChar]
        omega
    · refine ⟨c, b, by omega, ?_, ?_⟩
      · rw [show utf8Encode (c :: t) = utf8EncodeChar c ++ utf8Encode t
            from rfl]
        rw [List.take_append_eq_append_take,
           show b - (utf8EncodeChar c).length = 0 from by
             rw [length_utf8EncodeChar]; omega,
           List.take_zero, List.append_nil, takeBytes_cons_of_gt hcb]
        rw [show utf8Encode [] = [] from rfl, List.nil_append]
      · rw [takeBytes_cons_of_gt hcb]
        simp [utf8Encode]

theorem validUtf8_frag_false (c : Char) (k : Nat) (hk1 : 1 ≤ k)
    (hk2 : k < utf8Len c) :
    validUtf8 ((utf8EncodeChar c).take k) = false := by
  by_cases h1 : c.toNat < 0x80
  · exfalso
    have hl : utf8Len c = 1 := by unfold utf8Len; rw [if_pos h1]
    omega
  · by_cases h2 : c.toNat < 0x800
    · have hl : utf8Len c = 2 := by
        unfold utf8Len
        rw [if_neg h1, if_pos h2]
      rw [hl] at hk2
      interval_cases k
      rw [show utf8EncodeChar c =
          [0xC0 + c.toNat / 0x40, 0x80 + c.toNat % 0x40] from by
            unfold utf8EncodeChar
            dsimp only
            rw [if_neg h1, if_pos h2]]
      rw [show List.take 1 [0xC0 + c.toNat / 0x40, 0x80 + c.toNat % 0x40] =
          [0xC0 + c.toNat / 0x40] from rfl]
      unfold validUtf8
      simp only [validScan]
      rw [if_neg (by omega), if_pos (by constructor <;> omega :
        0xC2 ≤ 0xC0 + c.toNat / 0x40 ∧ 0xC0 + c.toNat / 0x40 ≤ 0xDF)]
    · by_cases h3 : c.toNat < 0x10000
      · have hl : utf8Len c = 3 := by
          unfold utf8Len
          rw [if_neg h1, if_neg h2, if_pos h3]
        have henc : utf8EncodeChar c =
            [0xE0 + c.toNat / 0x1000, 0x80 + c.toNat / 0x40 % 0x40,
             0x80 + c.toNat % 0x40] := by
          unfold utf8EncodeChar
          dsimp only
          rw [if_neg h1, if_neg h2, if_pos h3]
        have hcond1 : ¬ 0xE0 + c.toNat / 0x1000 ≤ 0x7F := by omega
        have hcond2 : ¬ (0xC2 ≤ 0xE0 + c.toNat / 0x1000 ∧
            0xE0 + c.toNat / 0x1000 ≤ 0xDF) := by omega
        have hcond3 : 0xE0 ≤ 0xE0 + c.toNat / 0x1000 ∧
            0xE0 + c.toNat / 0x1000 ≤ 0xEF := by constructor <;> omega
        rw [hl] at hk2
        interval_cases k
        · rw [henc,
             show List.take 1 [0xE0 + c.toNat / 0x1000,
               0x80 + c.toNat / 0x40 % 0x40, 0x80 + c.toNat % 0x40] =
               [0xE0 + c.toNat / 0x1000] from rfl]
          unfold validUtf8
          simp only [validScan]
          rw [if_neg hcond1, if_neg hcond2, if_pos hcond3]
        · rw [henc,
             show List.take 2 [0xE0 + c.toNat / 0x1000,
               0x80 + c.toNat / 0x40 % 0x40, 0x80 + c.toNat % 0x40] =
               [0xE0 + c.toNat / 0x1000, 0x80 + c.toNat / 0x40 % 0x40]
               from rfl]
          unfold validUtf8
          simp only [validScan]
          rw [if_neg hcond1, if_neg hcond2, if_pos hcond3, ite_self]
      · have hl : utf8Len c = 4 := by
          unfold utf8Len
          rw [if_neg h1, if_neg h2, if_neg h3]
        have henc : utf8EncodeChar c =
            [0xF0 + c.toNat / 0x40000, 0x80 + c.toNat / 0x1000 % 0x40,
             0x80 + c.toNat / 0x40 % 0x40, 0x80 + c.toNat % 0x40] := by
          unfold utf8EncodeChar
          dsimp only
          rw [if_neg h1, if_neg h2, if_neg h3]
        have hcond1 : ¬ 0xF0 + c.toNat / 0x40000 ≤ 0x7F := by omega
        have hcond2 : ¬ (0xC2 ≤ 0xF0 + c.toNat / 0x40000 ∧
            0xF0 + c.toNat / 0x40000 ≤ 0xDF) := by omega
        have hcond3 : ¬ (0xE0 ≤ 0xF0 + c.toNat / 0x40000 ∧
            0xF0 + c.toNat / 0x40000 ≤ 0xEF) := by omega
        have hub : c.toNat < 0x110000 := by
          rcases char_valid c with hv | hv
          · omega
          · exact hv.2
        have hcond4 : 0xF0 ≤ 0xF0 + c.toNat / 0x40000 ∧
            0xF0 + c.toNat / 0x40000 ≤ 0xF4 := by constructor <;> omega
        rw [hl] at hk2
        interval_cases k
        · rw [henc,
             show List.take 1 [0xF0 + c.toNat / 0x40000,
               0x80 + c.toNat / 0x1000 % 0x40, 0x80 + c.toNat / 0x40 % 0x40,
               0x80 + c.toNat % 0x40] = [0xF0 + c.toNat / 0x40000] from rfl]
          unfold validUtf8
          simp only [validScan]
          rw [if_neg hcond1, if_neg hcond2, if_neg hcond3, if_pos hcond4]
        · rw [henc,
             show List.take 2 [0xF0 + c.toNat / 0x40000,
               0x80 + c.toNat / 0x1000 % 0x40, 0x80 + c.toNat / 0x40 % 0x40,
               0x80 + c.toNat % 0x40] = [0xF0 + c.toNat / 0x40000,
               0x80 + c.toNat / 0x1000 % 0x40] from rfl]
          unfold validUtf8
          simp only [validScan]
          rw [if_neg hcond1, if_neg hcond2, if_neg hcond3, if_pos hcond4,
             ite_self]
        · rw [henc,
             show List.take 3 [0xF0 + c.toNat / 0x40000,
               0x80 + c.toNat / 0x1000 % 0x40, 0x80 + c.toNat / 0x40 % 0x40,
               0x80 + c.toNat % 0x40] = [0xF0 + c.toNat / 0x40000,
               0x80 + c.toNat / 0x1000 % 0x40, 0x80 + c.toNat / 0x40 % 0x40]
               from rfl]
          unfold validUtf8
          simp only [validScan]
          rw [if_neg hcond1, if_neg hcond2, if_neg hcond3, if_pos hcond4,
             ite_self, ite_self]

theorem dropWhileInvalid_encode_frag : ∀ (k fuel : Nat) (c : Char)
    (pre : List Char), k < utf8Len c → k ≤ fuel →
    dropWhileInvalid fuel (utf8Encode pre ++ (utf8EncodeChar c).take k) =
      utf8Encode pre := by
  intro k
  induction k with
  | zero =>
    intro fuel c pre _ _
    rw [List.take_zero, List.append_nil]
    cases fuel with
    | zero => rfl
    | succ f =>
      simp only [dropWhileInvalid]
      rw [if_pos (validUtf8_encode pre)]
  | succ m ih =>
    intro fuel c pre hk hfuel
    obtain ⟨f, rfl⟩ : ∃ f, fuel = f + 1 := ⟨fuel - 1, by omega⟩
    simp only [dropWhileInvalid]
    have hinv : validUtf8 (utf8Encode pre ++ (utf8EncodeChar c).take (m + 1))
        = false := by
      rw [validUtf8_encode_append]
      exact validUtf8_frag_false c (m + 1) (by omega) hk
    rw [if_neg (by simp [hinv])]
    have hlen : ((utf8EncodeChar c).take (m + 1)).length = m + 1 := by
      rw [List.length_take, length_utf8EncodeChar]
      omega
    have hne : (utf8EncodeChar c).take (m + 1) ≠ [] := by
      intro hnil
      rw [hnil] at hlen
      simp at hlen
    have hdl : (utf8Encode pre ++ (utf8EncodeChar c).take (m + 1)).dropLast =
        utf8Encode pre ++ (utf8EncodeChar c).take m := by
      rw [List.dropLast_append_of_ne_nil (utf8Encode pre) hne,
         List.dropLast_eq_take, hlen, Nat.add_sub_cancel, List.take_take,
         show min m (m + 1) = m from by omega]
    rw [hdl]
    exact ih f c pre (by omega) (by omega)

theorem goTruncateBytes_encode (l : List Char) (maxB : Nat) :
    goTruncateBytes (utf8Encode l) maxB =
      utf8Encode (truncateUTF8ByBytes l maxB) := by
  unfold goTruncateBytes truncateUTF8ByBytes
  by_cases h0 : maxB = 0
  · rw [if_pos (by simp [h0]), if_pos (by simp [h0])]
  · by_cases hle : bytesLen l ≤ maxB
    · rw [if_pos (by simp [length_utf8Encode, hle]),
         if_pos (by simp [hle])]
    · rw [if_neg (by simp [length_utf8Encode, h0, hle]),
         if_neg (by simp [h0, hle])]
      obtain ⟨c, k, hk, hsplit, hlenk⟩ :=
        take_utf8Encode_split l maxB (by omega)
      rw [hsplit]
      exact dropWhileInvalid_encode_frag k maxB c (takeBytes maxB l) hk
        (by omega)

theorem bytesLen_takeBytes_le : ∀ (b : Nat) (l : List Char),
    bytesLen (takeBytes b l) ≤ b := by
  intro b l
  induction l generalizing b with
  | nil =>
    rw [show takeBytes b [] = [] from rfl,
       show bytesLen ([] : List Char) = 0 from rfl]
    omega
  | cons c t ih =>
    by_cases h : utf8Len c ≤ b
    · rw [takeBytes_cons_of_le h, bytesLen_cons]
      have h2 := ih (b - utf8Len c)
      omega
    · rw [takeBytes_cons_of_gt h,
         show bytesLen ([] : List Char) = 0 from rfl]
      omega

/-- C4: for every string, the sanitized message is valid UTF-8 and its
byte length is at most 64,000; the byte-level truncation loop never
splits a UTF-8 scalar, i.e. it returns exactly the encoding of a
whole-scalar prefix (the char-level `cleanString`). -/
theorem cleanString_truncation_safe (l : List Char) :
    validUtf8 (cleanStringBytes l) = true ∧
    (cleanStringBytes l).length ≤ maxLogMessageBytes ∧
    cleanStringBytes l = utf8Encode (cleanString l) := by
  unfold cleanStringBytes cleanString
  by_cases hl : l = []
  · rw [if_pos hl, if_pos hl, hl]
    exact ⟨rfl, by simp, rfl⟩
  · rw [if_neg hl, if_neg hl]
    have hmain := goTruncateBytes_encode
      (trimSpace (replaceNonPrint (ansiStrip l))) maxLogMessageBytes
    refine ⟨?_, ?_, hmain⟩
    · rw [hmain]
      exact validUtf8_encode _
    · rw [hmain, length_utf8Encode]
      unfold truncateUTF8ByBytes
      by_cases hle : bytesLen (trimSpace (replaceNonPrint (ansiStrip l))) ≤
          maxLogMessageBytes
      · rw [if_pos (by simp [hle])]
        exact hle
      · rw [if_neg (by
          simp only [Bool.or_eq_true, decide_eq_true_eq]
          push_neg
          refine ⟨by norm_num [maxLogMessageBytes], by omega⟩)]
        exact bytesLen_takeBytes_le _ _

end Dockmon
